import Mathlib

/-!
Verification of the rsaxi motion planner and EBB device protocol layer.

The motion code (`src/motion/*.rs`) is embedded over the real numbers:
every `f64` becomes an `ℝ`, `f64::sqrt` becomes `Real.sqrt`, and the
planner's `while` loop (whose termination is not structurally evident)
is given an explicit fuel parameter; running out of fuel returns the
state reached so far, exactly as the loop's `break` does.  The device
layer (`src/device.rs`) works on machine integers and strings only, so
it is embedded computably: `i32` becomes `ℤ` (Rust `/` on `i32`
truncates toward zero, modelled by `Int.tdiv`), and the serial
transport is abstracted by passing the accumulated response string as
an argument and returning the bytes written to the wire.
-/

noncomputable section

open scoped Classical

/-- 2D point with 64-bit float coordinates, in millimeters (`geo::Point<f64>`). -/
structure Point where
  x : ℝ
  y : ℝ

instance : Add Point := ⟨fun p q => ⟨p.x + q.x, p.y + q.y⟩⟩

instance : Sub Point := ⟨fun p q => ⟨p.x - q.x, p.y - q.y⟩⟩

/-- Scalar multiple of a point, used by `lerps`. -/
def Point.scale (s : ℝ) (p : Point) : Point := ⟨s * p.x, s * p.y⟩

/-- Modelled from the spec: `PointExtension::distance` (src/src/motion/point.rs is
not present in the source tree).  Euclidean distance between two points. -/
def Point.distance (p q : Point) : ℝ := Real.sqrt ((p.x - q.x) ^ 2 + (p.y - q.y) ^ 2)

/-- Modelled from the spec: `PointExtension::dot` — the 2D dot product. -/
def Point.dot (p q : Point) : ℝ := p.x * q.x + p.y * q.y

/-- Modelled from the spec: `PointExtension::normalize` — "returns a unit-length
vector (zero vector maps to zero)". -/
def Point.normalize (p : Point) : Point :=
  let l := Real.sqrt (p.x ^ 2 + p.y ^ 2)
  if l = 0 then ⟨0, 0⟩ else ⟨p.x / l, p.y / l⟩

/-- Modelled from the spec: `PointExtension::lerps` — "linear interpolation
parameterized by arc length, i.e. `self + unit(p − self) * s`". -/
def Point.lerps (p q : Point) (s : ℝ) : Point := p + Point.scale s (Point.normalize (q - p))

/-- One constant-acceleration motion block (`src/src/motion/block.rs`). -/
structure Block where
  acceleration : ℝ
  duration : ℝ
  initialVelocity : ℝ
  distance : ℝ
  p1 : Point
  p2 : Point

/-- Model of `Block::new`: the `distance` field is derived from the endpoints. -/
def Block.new (acceleration duration initialVelocity : ℝ) (p1 p2 : Point) : Block :=
  ⟨acceleration, duration, initialVelocity, p1.distance p2, p1, p2⟩

/-- Planner segment between two consecutive polyline points
(`src/src/motion/segment.rs`). -/
structure Segment where
  p1 : Point
  p2 : Point
  vector : Point
  length : ℝ
  maxEntryVelocity : ℝ
  entryVelocity : ℝ
  blocks : List Block

/-- Model of `Segment::new`: length and unit direction are computed, velocities start at 0. -/
def Segment.new (p1 p2 : Point) : Segment :=
  { p1 := p1
    p2 := p2
    vector := (p2 - p1).normalize
    length := p1.distance p2
    maxEntryVelocity := 0
    entryVelocity := 0
    blocks := [] }

/-- Default segment used for (guarded) list indexing in the loop embedding. -/
def segDefault : Segment :=
  { p1 := ⟨0, 0⟩, p2 := ⟨0, 0⟩, vector := ⟨0, 0⟩, length := 0
    maxEntryVelocity := 0, entryVelocity := 0, blocks := [] }

/-- Triangular accelerate/decelerate profile (`src/src/motion/triangle.rs`). -/
structure Triangle where
  s1 : ℝ
  s2 : ℝ
  t1 : ℝ
  t2 : ℝ
  vmax : ℝ
  p1 : Point
  p2 : Point
  p3 : Point

/-- Model of `Triangle::triangular_profile` (src/src/motion/triangle.rs lines 31-56). -/
def triangularProfile (s vi vf a : ℝ) (p1 p3 : Point) : Triangle :=
  let s1 := (2 * a * s + vf * vf - vi * vi) / (4 * a)
  let s2 := s - s1
  let vmax := Real.sqrt (vi * vi + 2 * a * s1)
  let t1 := (vmax - vi) / a
  let t2 := (vf - vmax) / (-a)
  let p2 := p1.lerps p3 (s1 / s)
  ⟨s1, s2, t1, t2, vmax, p1, p2, p3⟩

/-- Trapezoidal accelerate/cruise/decelerate profile. -/
structure Trapezoid where
  t1 : ℝ
  t2 : ℝ
  t3 : ℝ
  sAccel : ℝ
  sDecel : ℝ
  sCruise : ℝ
  p1 : Point
  p2 : Point
  p3 : Point
  p4 : Point

/-- Modelled from the spec: `Trapezoid::trapezoidal_profile`
(src/src/motion/trapezoid.rs is not present in the source tree; formulas from
spec §4.1: `t1 = (vmax − vi)/a`, `s_accel = (vmax² − vi²)/(2a)`,
`t3 = (vmax − vf)/a`, `s_decel = (vmax² − vf²)/(2a)`,
`s_cruise = s − s_accel − s_decel`, `t2 = s_cruise/vmax`, interior points by
`lerp` at the cumulative distances). -/
def trapezoidalProfile (s vi vmax vf a : ℝ) (p1 p4 : Point) : Trapezoid :=
  let t1 := (vmax - vi) / a
  let sAccel := (vmax * vmax - vi * vi) / (2 * a)
  let t3 := (vmax - vf) / a
  let sDecel := (vmax * vmax - vf * vf) / (2 * a)
  let sCruise := s - sAccel - sDecel
  let t2 := sCruise / vmax
  let p2 := p1.lerps p4 sAccel
  let p3 := p1.lerps p4 (s - sDecel)
  ⟨t1, t2, t3, sAccel, sDecel, sCruise, p1, p2, p3, p4⟩

/-- Value of `std::f64::EPSILON`, the machine epsilon 2⁻⁵² used by `corner_velocity`
(src/src/motion/util.rs line 1). -/
def f64Epsilon : ℝ := 1 / 2 ^ 52

/-- Model of `corner_velocity` (src/src/motion/util.rs lines 16-37): maximal velocity at
the corner between two adjacent segments. -/
def cornerVelocity (s1 s2 : Segment) (vmax a cf : ℝ) : ℝ :=
  let cosine := -(s1.vector.dot s2.vector)
  if |cosine - 1| < f64Epsilon then 0
  else
    let sine := Real.sqrt ((1 - cosine) / 2)
    if |sine - 1| < f64Epsilon then vmax
    else min (Real.sqrt ((a * cf * sine) / (1 - sine))) vmax

/-- The planner's `EPSILON = 1e-9` (src/src/motion/plan.rs line 35). -/
def epsPlan : ℝ := 1 / 10 ^ 9

/-- Model of `Plan::dedup_points` (src/src/motion/plan.rs lines 197-214), inner loop:
keep a point only if it is farther than `epsilon` from the last kept point. -/
def dedupGo (epsilon : ℝ) : Point → List Point → List Point
  | _, [] => []
  | last, q :: rest =>
      if last.distance q > epsilon then q :: dedupGo epsilon q rest
      else dedupGo epsilon last rest

/-- Model of `Plan::dedup_points`: the first point is always kept. -/
def dedupPoints (points : List Point) (epsilon : ℝ) : List Point :=
  match points with
  | [] => []
  | p :: rest => p :: dedupGo epsilon p rest

/-- Step 3 of `Plan::new`: one segment per consecutive pair (`windows(2)`). -/
def mkSegments : List Point → List Segment
  | p :: q :: rest => Segment.new p q :: mkSegments (q :: rest)
  | _ => []

/-- Step 4 of `Plan::new` (lines 60-73), inner recursion: each segment after the
first gets `max_entry_velocity` from the corner with its predecessor. -/
def cornerPassGo (vmax a cf : ℝ) : Segment → List Segment → List Segment
  | _, [] => []
  | prev, s :: rest =>
      let s' := { s with maxEntryVelocity := cornerVelocity prev s vmax a cf }
      s' :: cornerPassGo vmax a cf s' rest

/-- Step 4 of `Plan::new`: the first segment's `max_entry_velocity` is untouched. -/
def cornerPass (segs : List Segment) (vmax a cf : ℝ) : List Segment :=
  match segs with
  | [] => []
  | s :: rest => s :: cornerPassGo vmax a cf s rest

/-- One iteration of the forward pass of `Plan::new` (lines 81-155).  Returns
the updated segment list, the next loop index, and whether the loop continues
(`false` models the `break` on backtracking at index 0). -/
def planStep (acceleration : ℝ) (segs : List Segment) (i : ℕ) :
    List Segment × ℕ × Bool :=
  let segment := segs.getD i segDefault
  let next := segs.getD (i + 1) segDefault
  let s := segment.length
  let vi := segment.entryVelocity
  let vmaxSegment := segment.maxEntryVelocity
  let vexit := min next.maxEntryVelocity vmaxSegment
  let p1 := segment.p1
  let p2 := segment.p2
  let m := triangularProfile s vi vexit acceleration p1 p2
  if m.s1 < -epsPlan then
    let segs' := segs.set i
      { segment with maxEntryVelocity := Real.sqrt (vexit ^ 2 + 2 * acceleration * s) }
    if 0 < i then (segs', i - 1, true) else (segs', i, false)
  else if m.s2 ≤ 0 then
    let vf := Real.sqrt (vi ^ 2 + 2 * acceleration * s)
    let t := (vf - vi) / acceleration
    let blockList := [Block.new acceleration t vi p1 p2]
    let segs' := (segs.set (i + 1) { next with entryVelocity := vf }).set i
      { segment with blocks := blockList }
    (segs', i + 1, true)
  else if m.vmax > vmaxSegment + epsPlan then
    let z := trapezoidalProfile s vi vmaxSegment vexit acceleration p1 p2
    let blockList :=
      [Block.new acceleration z.t1 vi z.p1 z.p2,
       Block.new 0 z.t2 vmaxSegment z.p2 z.p3,
       Block.new (-acceleration) z.t3 vmaxSegment z.p3 z.p4]
    let segs' := (segs.set (i + 1) { next with entryVelocity := vexit }).set i
      { segment with blocks := blockList }
    (segs', i + 1, true)
  else
    let blockList :=
      [Block.new acceleration m.t1 vi m.p1 m.p2,
       Block.new (-acceleration) m.t2 m.vmax m.p2 m.p3]
    let segs' := (segs.set (i + 1) { next with entryVelocity := vexit }).set i
      { segment with blocks := blockList }
    (segs', i + 1, true)

/-- The forward pass `while (i as usize) < segments.len() - 1` of `Plan::new`,
with an explicit fuel bound on the number of iterations (the Rust loop's
termination is not structurally evident; exhausted fuel returns the current
state, like the loop's `break`). -/
def planLoop (acceleration : ℝ) : ℕ → List Segment → ℕ → List Segment
  | 0, segs, _ => segs
  | fuel + 1, segs, i =>
      if i < segs.length - 1 then
        let r := planStep acceleration segs i
        if r.2.2 then planLoop acceleration fuel r.1 r.2.1 else r.1
      else segs

/-- The accumulation loop of `Plan::new` (lines 167-178): per-block start times
and start distances, plus the running totals. -/
def accumulate : List Block → ℝ → ℝ → List ℝ × List ℝ × ℝ × ℝ
  | [], t, s => ([], [], t, s)
  | b :: rest, t, s =>
      let r := accumulate rest (t + b.duration) (s + b.distance)
      (t :: r.1, s :: r.2.1, r.2.2)

/-- The planner output (`src/src/motion/plan.rs` lines 10-16). -/
structure Plan where
  blocks : List Block
  totalTime : ℝ
  totalDistance : ℝ
  times : List ℝ
  distances : List ℝ

/-- Model of `Plan::new` (src/src/motion/plan.rs lines 29-187).  `none` models the
panic of `deduped_points.last().unwrap()` on an empty input; the `PlanError`
result type of the source is never used on the `Ok` path. -/
def planNew (fuel : ℕ) (points : List Point)
    (acceleration maxVelocity cornerFactor : ℝ) : Option Plan :=
  let deduped := dedupPoints points epsPlan
  if deduped.length = 1 then
    match deduped with
    | p :: _ =>
        some { blocks := [Block.new 0 0 0 p p], totalTime := 0, totalDistance := 0
               times := [0], distances := [0] }
    | [] => none
  else
    let segs0 := cornerPass (mkSegments deduped) maxVelocity acceleration cornerFactor
    match deduped.getLast? with
    | none => none
    | some lastPoint =>
        let segs1 := segs0 ++ [Segment.new lastPoint lastPoint]
        let segs2 := planLoop acceleration fuel segs1 0
        let allBlocks := (segs2.flatMap Segment.blocks).filter
          (fun b => b.duration > epsPlan)
        let acc := accumulate allBlocks 0 0
        some { blocks := allBlocks, totalTime := acc.2.2.1, totalDistance := acc.2.2.2
               times := acc.1, distances := acc.2.1 }

end

/-! ## Device protocol layer (`src/src/device.rs`)

String operations are implemented over the character-list representation so
that theorems about arbitrary commands stay tractable; each definition
documents the Rust operation it models. -/

/-- Model of `DeviceError` (src/src/device.rs lines 7-20). -/
inductive DeviceError where
  | connectionError (message : String)
  | commandError (command message : String)
  | invalidValue (parameter value : String)
  | invalidResponse (message : String)
deriving DecidableEq

/-- Whether an error is the `InvalidResponse` variant. -/
def DeviceError.isInvalidResponse : DeviceError → Bool
  | .invalidResponse _ => true
  | _ => false

/-- The pen-related state of `Device` (src/src/device.rs lines 58-78); the
serial port handle and motor state are irrelevant to the claims and omitted. -/
structure Device where
  connected : Bool
  stepsPerUnit : ℤ
  penUpPosition : ℤ
  penUpSpeed : ℤ
  penUpDelay : ℤ
  penDownPosition : ℤ
  penDownSpeed : ℤ
  penDownDelay : ℤ
  isLowered : Bool
deriving DecidableEq

/-- Rust `str::is_ascii`: every byte is at most 0x7F. -/
def isAsciiStr (s : String) : Bool := s.data.all (fun c => c.toNat ≤ 127)

/-- Rust `cmd.contains(|c| c == '\n' || c == '\r')`. -/
def containsCrLf (s : String) : Bool := s.data.any (fun c => c == '\n' || c == '\r')

/-- Rust `str::trim`: strip leading and trailing whitespace. -/
def trimStr (s : String) : String :=
  ⟨((s.data.dropWhile Char.isWhitespace).reverse.dropWhile Char.isWhitespace).reverse⟩

/-- Rust `str::starts_with` for a string pattern. -/
def startsWithStr (s pat : String) : Bool := pat.data.isPrefixOf s.data

/-- Rust `str::ends_with` for a string pattern. -/
def endsWithStr (s pat : String) : Bool := pat.data.isSuffixOf s.data

/-- Rust `str::to_uppercase` (the commands involved are ASCII). -/
def toUpperStr (s : String) : String := ⟨s.data.map Char.toUpper⟩

/-- One round of `str::trim_end_matches`: drop one trailing occurrence. -/
def stripSuffixRep : ℕ → List Char → List Char → List Char
  | 0, l, _ => l
  | n + 1, l, pat =>
      if pat.isSuffixOf l && !pat.isEmpty then
        stripSuffixRep n (l.take (l.length - pat.length)) pat
      else l

/-- Rust `str::trim_end_matches`: repeatedly remove the trailing pattern
(`l.length` rounds always suffice since the pattern is non-empty). -/
def trimEndMatchesStr (s pat : String) : String :=
  ⟨stripSuffixRep s.data.length s.data pat.data⟩

/-- The commands that do not append `OK` (src/src/device.rs line 292). -/
def noOkCommands : List String := ["V", "I", "A", "MR", "PI", "QM"]

/-- Model of `Device::command` (src/src/device.rs lines 237-328).  The accumulated
serial response is passed as the `response` argument; the result carries the
exact bytes written to the wire together with the returned payload. -/
def commandRun (connected : Bool) (cmd response : String) :
    Except DeviceError (String × String) :=
  if cmd = "" then
    .error (.commandError cmd "Команда не може бути порожньою")
  else if !isAsciiStr cmd || containsCrLf cmd then
    .error (.commandError cmd "Команда містить недозволені символи")
  else
    let fullCmd := trimStr cmd ++ "\r"
    if 256 < fullCmd.length then
      .error (.commandError cmd "Команда перевищує максимальну довжину 256 байт")
    else if connected != true then
      .error (.connectionError "Пристрій не підключений")
    else
      if !(noOkCommands.any (fun c => startsWithStr (toUpperStr cmd) c)) then
        if endsWithStr response "OK\r\n" then
          .ok (fullCmd, trimEndMatchesStr response "OK\r\n")
        else
          .error (.commandError cmd "Відповідь не містить очікуваного OK")
      else
        .ok (fullCmd, response)

/-- Model of `Device::pen_state` (src/src/device.rs lines 555-616).  `durationMs` is the
millisecond count of the optional `Duration` argument; on success the command's
written bytes and the device with the updated `is_lowered` cache are returned. -/
def penState (d : Device) (value : ℕ) (durationMs : Option ℕ) (portbPin : Option ℕ)
    (response : String) : Except DeviceError (String × Device) :=
  if value != 0 && value != 1 then
    .error (.invalidValue "value" (toString value))
  else if (match portbPin with | some pin => decide (7 < pin) | none => false) then
    .error (.invalidValue "portb_pin"
      (match portbPin with | some pin => toString pin | none => ""))
  else
    let cmd := "SP," ++ Nat.repr value
    match durationMs with
    | some dur =>
        if dur < 1 || 65535 < dur then
          .error (.invalidValue "duration" (toString dur))
        else
          let cmd := cmd ++ "," ++ Nat.repr dur
          let cmd := match portbPin with
            | some pin => cmd ++ "," ++ Nat.repr pin
            | none => cmd
          match commandRun d.connected cmd response with
          | .error e => .error e
          | .ok (written, _) => .ok (written, { d with isLowered := value == 0 })
    | none =>
        let cmd := cmd ++ ",0"
        let cmd := match portbPin with
          | some pin => cmd ++ "," ++ Nat.repr pin
          | none => cmd
        match commandRun d.connected cmd response with
        | .error e => .error e
        | .ok (written, _) => .ok (written, { d with isLowered := value == 0 })

/-- Model of `Device::pen_down` (src/src/device.rs lines 494-499).  `i32` division
truncates toward zero, hence `Int.tdiv`; `delay as u64` is `Int.toNat` since
`delay` is clamped at 0. -/
def penDown (d : Device) (response : String) : Except DeviceError (String × Device) :=
  let delta := |d.penUpPosition - d.penDownPosition|
  let duration := Int.tdiv (1000 * delta) d.penDownSpeed
  let delay := max 0 (duration + d.penDownDelay)
  penState d 0 (some delay.toNat) none response

/-- Device configuration with the documented defaults (pen up 60, pen down 30,
speed 150, delays 0). -/
def devBase : Device :=
  { connected := true, stepsPerUnit := 80, penUpPosition := 60, penUpSpeed := 150
    penUpDelay := 0, penDownPosition := 30, penDownSpeed := 150, penDownDelay := 0
    isLowered := false }

/-- The default configuration with `pen_down_speed = 7`, a speed at which
truncating division and rounding differ. -/
def devSpeed7 : Device := { devBase with penDownSpeed := 7 }

/-! ## Theorems -/

/-- C3: for `s > 0`, `vi ≥ 0`, `vf ≥ 0`, `a > 0`, `Triangle::triangular_profile`
returns `s1 = (2as + vf² − vi²)/(4a)`, `s2 = s − s1`, `vmax = √(vi² + 2as1)`,
`t1 = (vmax − vi)/a`, `t2 = (vmax − vf)/a`, `p2 = lerps(p1, p3, s1/s)`; for
`vi = vf = 0` this is the symmetric triangle `s1 = s2 = s/2`, `vmax = √(as)`. -/
theorem triangular_profile_formulas (s vi vf a : ℝ) (p1 p3 : Point)
    (hs : 0 < s) (hvi : 0 ≤ vi) (hvf : 0 ≤ vf) (ha : 0 < a) :
    let m := triangularProfile s vi vf a p1 p3
    m.s1 = (2 * a * s + vf ^ 2 - vi ^ 2) / (4 * a) ∧
    m.s2 = s - m.s1 ∧
    m.vmax = Real.sqrt (vi ^ 2 + 2 * a * m.s1) ∧
    m.t1 = (m.vmax - vi) / a ∧
    m.t2 = (m.vmax - vf) / a ∧
    m.p2 = p1.lerps p3 (m.s1 / s) ∧
    (vi = 0 → vf = 0 → m.s1 = s / 2 ∧ m.s2 = s / 2 ∧ m.vmax = Real.sqrt (a * s)) := by
  have ha' : a ≠ 0 := ne_of_gt ha
  have h4a : (4 : ℝ) * a ≠ 0 := by positivity
  refine ⟨?_, rfl, ?_, rfl, ?_, rfl, ?_⟩
  · show (2 * a * s + vf * vf - vi * vi) / (4 * a) = _
    ring_nf
  · show Real.sqrt (vi * vi + 2 * a * ((2 * a * s + vf * vf - vi * vi) / (4 * a))) =
        Real.sqrt (vi ^ 2 + 2 * a * ((2 * a * s + vf * vf - vi * vi) / (4 * a)))
    congr 1
    ring
  · show (vf - Real.sqrt (vi * vi + 2 * a * ((2 * a * s + vf * vf - vi * vi) / (4 * a))))
        / (-a) =
        (Real.sqrt (vi * vi + 2 * a * ((2 * a * s + vf * vf - vi * vi) / (4 * a))) - vf) / a
    rw [div_neg, ← neg_div, neg_sub]
  · intro h0 h1
    subst h0; subst h1
    refine ⟨?_, ?_, ?_⟩
    · show (2 * a * s + 0 * 0 - 0 * 0) / (4 * a) = s / 2
      field_simp
      ring
    · show s - (2 * a * s + 0 * 0 - 0 * 0) / (4 * a) = s / 2
      field_simp
      ring
    · show Real.sqrt (0 * 0 + 2 * a * ((2 * a * s + 0 * 0 - 0 * 0) / (4 * a))) = _
      congr 1
      field_simp
      ring

/-- Witness for C3 at `s = 2`, `vi = vf = 0`, `a = 1`. -/
theorem triangular_profile_formulas_witness :
    (0:ℝ) < 2 ∧ (0:ℝ) < 1 ∧
    (let m := triangularProfile 2 0 0 1 ⟨0, 0⟩ ⟨2, 0⟩
     m.s1 = (2 * 1 * 2 + 0 ^ 2 - 0 ^ 2) / (4 * 1) ∧
     m.s2 = 2 - m.s1 ∧
     m.vmax = Real.sqrt (0 ^ 2 + 2 * 1 * m.s1) ∧
     m.t1 = (m.vmax - 0) / 1 ∧
     m.t2 = (m.vmax - 0) / 1 ∧
     m.p2 = Point.lerps ⟨0, 0⟩ ⟨2, 0⟩ (m.s1 / 2) ∧
     ((0:ℝ) = 0 → (0:ℝ) = 0 → m.s1 = 2 / 2 ∧ m.s2 = 2 / 2 ∧
       m.vmax = Real.sqrt (1 * 2))) :=
  ⟨by norm_num, by norm_num,
   triangular_profile_formulas 2 0 0 1 ⟨0, 0⟩ ⟨2, 0⟩ (by norm_num) le_rfl le_rfl
     (by norm_num)⟩

theorem epsPlan_pos : (0 : ℝ) < epsPlan := by norm_num [epsPlan]

theorem f64Epsilon_pos : (0 : ℝ) < f64Epsilon := by norm_num [f64Epsilon]

/-- C4: when the triangular solution for segment `i` has `s1 < −ε`, the forward
pass overwrites `segments[i].max_entry_velocity` with `√(vexit² + 2as)` and
decrements the index (stopping only at `i = 0`); the new bound is strictly
below the entry velocity that triggered the backtrack. -/
theorem backtrack_step (a : ℝ) (segs : List Segment) (i : ℕ)
    (ha : 0 < a)
    (hvi : 0 ≤ (segs.getD i segDefault).entryVelocity)
    (hs : 0 ≤ (segs.getD i segDefault).length)
    (hbt : (triangularProfile (segs.getD i segDefault).length
        (segs.getD i segDefault).entryVelocity
        (min (segs.getD (i + 1) segDefault).maxEntryVelocity
          (segs.getD i segDefault).maxEntryVelocity) a
        (segs.getD i segDefault).p1 (segs.getD i segDefault).p2).s1 < -epsPlan) :
    let seg := segs.getD i segDefault
    let vexit := min (segs.getD (i + 1) segDefault).maxEntryVelocity seg.maxEntryVelocity
    let newV := Real.sqrt (vexit ^ 2 + 2 * a * seg.length)
    (planStep a segs i).1 = segs.set i { seg with maxEntryVelocity := newV } ∧
    (0 < i → (planStep a segs i).2 = (i - 1, true)) ∧
    (i = 0 → (planStep a segs i).2 = (0, false)) ∧
    newV < seg.entryVelocity := by
  have hs1 : (2 * a * (segs.getD i segDefault).length +
      (min (segs.getD (i + 1) segDefault).maxEntryVelocity
        (segs.getD i segDefault).maxEntryVelocity) *
      (min (segs.getD (i + 1) segDefault).maxEntryVelocity
        (segs.getD i segDefault).maxEntryVelocity) -
      (segs.getD i segDefault).entryVelocity * (segs.getD i segDefault).entryVelocity) /
      (4 * a) < -epsPlan := hbt
  have h4a : (0 : ℝ) < 4 * a := by positivity
  have hnum : 2 * a * (segs.getD i segDefault).length +
      (min (segs.getD (i + 1) segDefault).maxEntryVelocity
        (segs.getD i segDefault).maxEntryVelocity) *
      (min (segs.getD (i + 1) segDefault).maxEntryVelocity
        (segs.getD i segDefault).maxEntryVelocity) -
      (segs.getD i segDefault).entryVelocity * (segs.getD i segDefault).entryVelocity
      < -epsPlan * (4 * a) := (div_lt_iff h4a).mp hs1
  have hviPos : 0 < (segs.getD i segDefault).entryVelocity := by
    rcases lt_or_eq_of_le hvi with h | h
    · exact h
    · exfalso
      have heps := epsPlan_pos
      nlinarith [sq_nonneg (min (segs.getD (i + 1) segDefault).maxEntryVelocity
        (segs.getD i segDefault).maxEntryVelocity),
        mul_nonneg (le_of_lt ha) hs]
  have hlt : Real.sqrt ((min (segs.getD (i + 1) segDefault).maxEntryVelocity
      (segs.getD i segDefault).maxEntryVelocity) ^ 2 +
      2 * a * (segs.getD i segDefault).length) < (segs.getD i segDefault).entryVelocity := by
    rw [Real.sqrt_lt' hviPos]
    have heps := epsPlan_pos
    nlinarith
  refine ⟨?_, ?_, ?_, hlt⟩
  · simp only [planStep]
    rw [if_pos hbt]
    rcases Nat.eq_zero_or_pos i with h0 | h0
    · subst h0; rfl
    · rw [if_pos h0]
  · intro h0
    simp only [planStep]
    rw [if_pos hbt, if_pos h0]
  · intro h0
    subst h0
    simp only [planStep]
    rw [if_pos hbt, if_neg (by omega : ¬ 0 < 0)]

/-- Witness for C4: two segments, entry velocity 10 at a unit-length segment
whose exit must be 0 — the triangular `s1` is `−24.5`, a backtrack at `i = 0`. -/
theorem backtrack_step_witness :
    let seg0 : Segment := { p1 := ⟨0, 0⟩, p2 := ⟨1, 0⟩, vector := ⟨1, 0⟩, length := 1
                            maxEntryVelocity := 20, entryVelocity := 10, blocks := [] }
    let segsW := [seg0, Segment.new ⟨1, 0⟩ ⟨1, 0⟩]
    let vexitW := min (Segment.new ⟨1, 0⟩ ⟨1, 0⟩).maxEntryVelocity (20 : ℝ)
    (planStep 1 segsW 0).1 =
      segsW.set 0 { seg0 with maxEntryVelocity := Real.sqrt (vexitW ^ 2 + 2 * 1 * 1) } ∧
    (planStep 1 segsW 0).2 = (0, false) ∧
    Real.sqrt (vexitW ^ 2 + 2 * 1 * 1) < 10 := by
  intro seg0 segsW vexitW
  have hbt : (triangularProfile (segsW.getD 0 segDefault).length
      (segsW.getD 0 segDefault).entryVelocity
      (min (segsW.getD 1 segDefault).maxEntryVelocity
        (segsW.getD 0 segDefault).maxEntryVelocity) 1
      (segsW.getD 0 segDefault).p1 (segsW.getD 0 segDefault).p2).s1 < -epsPlan := by
    show (2 * 1 * (1:ℝ) + min (Segment.new ⟨1, 0⟩ ⟨1, 0⟩).maxEntryVelocity 20 *
        min (Segment.new ⟨1, 0⟩ ⟨1, 0⟩).maxEntryVelocity 20 - 10 * 10) / (4 * 1)
        < -epsPlan
    have : (Segment.new ⟨1, 0⟩ ⟨1, 0⟩).maxEntryVelocity = 0 := rfl
    rw [this]
    norm_num [epsPlan]
  have h := backtrack_step 1 segsW 0 (by norm_num)
    (by show (0:ℝ) ≤ 10; norm_num) (by show (0:ℝ) ≤ 1; norm_num) hbt
  exact ⟨h.1, h.2.2.1 rfl, h.2.2.2⟩

/-- C10: `Plan::new` with an empty points vector reaches
`deduped_points.last().unwrap()` on `None` and panics (modelled as `none`);
for every non-empty input the unwrap succeeds, so the plan is produced. -/
theorem plan_new_total_iff_nonempty (fuel : ℕ) (a v cf : ℝ) :
    planNew fuel [] a v cf = none ∧
    ∀ pts : List Point, pts ≠ [] → (planNew fuel pts a v cf).isSome = true := by
  constructor
  · rfl
  · intro pts hne
    obtain ⟨p, rest, rfl⟩ := List.exists_cons_of_ne_nil hne
    simp only [planNew, dedupPoints]
    by_cases hlen : (p :: dedupGo epsPlan p rest).length = 1
    · rw [if_pos hlen]
      rfl
    · rw [if_neg hlen]
      obtain ⟨q, hq⟩ := Option.isSome_iff_exists.mp
        (List.getLast?_isSome.mpr (List.cons_ne_nil p (dedupGo epsPlan p rest)))
      rw [hq]
      rfl

/-- Witness for C10: the concrete empty and one-point inputs. -/
theorem plan_new_total_iff_nonempty_witness :
    planNew 0 ([] : List Point) 16 20 (1 / 1000) = none ∧
    (planNew 0 [(⟨0, 0⟩ : Point)] 16 20 (1 / 1000)).isSome = true :=
  ⟨(plan_new_total_iff_nonempty 0 16 20 (1 / 1000)).1,
   (plan_new_total_iff_nonempty 0 16 20 (1 / 1000)).2 [⟨0, 0⟩] (by simp)⟩

/-- C5 counterexample: for the one-point input the returned plan returns one
block of duration 0, which is not strictly greater than ε — the claim that
every block of every returned plan has duration above ε fails there (the
single-point branch returns its placeholder block unfiltered). -/
theorem plan_single_point_zero_duration_block :
    planNew 0 [(⟨0, 0⟩ : Point)] 16 20 (1 / 1000) =
      some { blocks := [Block.new 0 0 0 ⟨0, 0⟩ ⟨0, 0⟩], totalTime := 0, totalDistance := 0
             times := [0], distances := [0] } ∧
    ¬ epsPlan < (Block.new 0 0 0 (⟨0, 0⟩ : Point) ⟨0, 0⟩).duration := by
  constructor
  · rfl
  · show ¬ epsPlan < 0
    norm_num [epsPlan]

/-- C5 (amended): every block of a plan returned by `Plan::new` either has
duration strictly above ε = 1e-9 (the multi-point path filters out blocks with
duration ≤ ε before assembling the plan) or is the single zero-duration
placeholder block of the degenerate single-point plan, whose totals are zero. -/
theorem plan_blocks_duration (fuel : ℕ) (pts : List Point) (a v cf : ℝ) (pl : Plan)
    (h : planNew fuel pts a v cf = some pl) (b : Block) (hb : b ∈ pl.blocks) :
    epsPlan < b.duration ∨
      (b.duration = 0 ∧ pl.totalTime = 0 ∧ pl.totalDistance = 0) := by
  simp only [planNew] at h
  by_cases hlen : (dedupPoints pts epsPlan).length = 1
  · rw [if_pos hlen] at h
    rcases hd : dedupPoints pts epsPlan with _ | ⟨p, rest⟩
    · rw [hd] at hlen
      simp at hlen
    · rw [hd] at h
      have hpl := Option.some.inj h
      subst hpl
      simp only [List.mem_singleton] at hb
      subst hb
      exact Or.inr ⟨rfl, rfl, rfl⟩
  · rw [if_neg hlen] at h
    rcases hq : (dedupPoints pts epsPlan).getLast? with _ | q
    · rw [hq] at h
      exact absurd h (by simp)
    · rw [hq] at h
      have hpl := Option.some.inj h
      subst hpl
      have := (List.mem_filter.mp hb).2
      exact Or.inl (of_decide_eq_true this)

theorem accumulate_spec (l : List Block) (t s : ℝ) :
    (accumulate l t s).1.length = l.length ∧
    (accumulate l t s).2.1.length = l.length ∧
    (l ≠ [] → (accumulate l t s).1.head? = some t ∧
      (accumulate l t s).2.1.head? = some s) ∧
    (accumulate l t s).2.2.1 = t + (l.map Block.duration).sum ∧
    (accumulate l t s).2.2.2 = s + (l.map Block.distance).sum := by
  induction l generalizing t s with
  | nil => simp [accumulate]
  | cons b rest ih =>
    obtain ⟨ih1, ih2, _, ih4, ih5⟩ := ih (t + b.duration) (s + b.distance)
    refine ⟨?_, ?_, ?_, ?_, ?_⟩
    · simpa [accumulate] using ih1
    · simpa [accumulate] using ih2
    · intro _
      exact ⟨rfl, rfl⟩
    · show (accumulate rest (t + b.duration) (s + b.distance)).2.2.1 = _
      rw [ih4]
      simp
      ring
    · show (accumulate rest (t + b.duration) (s + b.distance)).2.2.2 = _
      rw [ih5]
      simp
      ring

theorem accumulate_getD (l : List Block) (t s : ℝ) (i : ℕ) (h : i + 1 < l.length) :
    (accumulate l t s).1.getD (i + 1) 0 =
      (accumulate l t s).1.getD i 0 +
        (l.getD i (Block.new 0 0 0 ⟨0, 0⟩ ⟨0, 0⟩)).duration ∧
    (accumulate l t s).2.1.getD (i + 1) 0 =
      (accumulate l t s).2.1.getD i 0 +
        (l.getD i (Block.new 0 0 0 ⟨0, 0⟩ ⟨0, 0⟩)).distance := by
  induction l generalizing t s i with
  | nil => simp at h
  | cons b rest ih =>
    cases i with
    | zero =>
      rcases rest with _ | ⟨c, rest'⟩
      · simp at h
      · constructor
        · simp [accumulate]
        · simp [accumulate]
    | succ n =>
      have hn : n + 1 < rest.length := by simpa using h
      obtain ⟨ihl, ihr⟩ := ih (t + b.duration) (s + b.distance) n hn
      constructor
      · simpa [accumulate] using ihl
      · simpa [accumulate] using ihr

theorem accumulate_chain (l : List Block) (t s : ℝ)
    (hd : ∀ b ∈ l, 0 ≤ b.duration) (hs : ∀ b ∈ l, 0 ≤ b.distance) :
    List.Chain' (· ≤ ·) (accumulate l t s).1 ∧
    List.Chain' (· ≤ ·) (accumulate l t s).2.1 := by
  induction l generalizing t s with
  | nil => simp [accumulate]
  | cons b rest ih =>
    obtain ⟨ih1, ih2⟩ := ih (t + b.duration) (s + b.distance)
      (fun x hx => hd x (List.mem_cons_of_mem b hx))
      (fun x hx => hs x (List.mem_cons_of_mem b hx))
    have hbd : 0 ≤ b.duration := hd b (by simp)
    have hbs : 0 ≤ b.distance := hs b (by simp)
    constructor
    · show List.Chain' (· ≤ ·) (t :: (accumulate rest (t + b.duration) (s + b.distance)).1)
      rw [List.chain'_cons']
      refine ⟨?_, ih1⟩
      intro y hy
      rcases rest with _ | ⟨c, rest'⟩
      · simp [accumulate] at hy
      · have hyq : y = t + b.duration := by
          have hh : (accumulate (c :: rest') (t + b.duration) (s + b.distance)).1.head? =
              some (t + b.duration) := rfl
          rw [hh] at hy
          exact (Option.mem_some_iff.mp hy).symm
        rw [hyq]
        linarith
    · show List.Chain' (· ≤ ·) (s :: (accumulate rest (t + b.duration) (s + b.distance)).2.1)
      rw [List.chain'_cons']
      refine ⟨?_, ih2⟩
      intro y hy
      rcases rest with _ | ⟨c, rest'⟩
      · simp [accumulate] at hy
      · have hyq : y = s + b.distance := by
          have hh : (accumulate (c :: rest') (t + b.duration) (s + b.distance)).2.1.head? =
              some (s + b.distance) := rfl
          rw [hh] at hy
          exact (Option.mem_some_iff.mp hy).symm
        rw [hyq]
        linarith

theorem block_new_distance_nonneg (a t v : ℝ) (p q : Point) :
    0 ≤ (Block.new a t v p q).distance := Real.sqrt_nonneg _

theorem getD_blocks_nonneg (segs : List Segment) (i : ℕ)
    (H : ∀ b ∈ segs.flatMap Segment.blocks, 0 ≤ b.distance) :
    ∀ b ∈ (segs.getD i segDefault).blocks, 0 ≤ b.distance := by
  intro b hb
  by_cases hi : i < segs.length
  · refine H b (List.mem_flatMap.mpr ⟨segs.getD i segDefault, ?_, hb⟩)
    rw [List.getD_eq_getElem segs segDefault hi]
    exact List.getElem_mem hi
  · rw [List.getD_eq_default segs segDefault (Nat.le_of_not_lt hi)] at hb
    simp [segDefault] at hb

theorem planStep_blocks_nonneg (a : ℝ) (segs : List Segment) (i : ℕ)
    (H : ∀ b ∈ segs.flatMap Segment.blocks, 0 ≤ b.distance) :
    ∀ b ∈ (planStep a segs i).1.flatMap Segment.blocks, 0 ≤ b.distance := by
  intro b hb
  rw [List.mem_flatMap] at hb
  obtain ⟨sg, hsg, hbsg⟩ := hb
  simp only [planStep] at hsg
  split_ifs at hsg with h1 hI h2 h3
  · rcases List.mem_or_eq_of_mem_set hsg with hmem | rfl
    · exact H b (List.mem_flatMap.mpr ⟨sg, hmem, hbsg⟩)
    · exact getD_blocks_nonneg segs i H b hbsg
  · rcases List.mem_or_eq_of_mem_set hsg with hmem | rfl
    · exact H b (List.mem_flatMap.mpr ⟨sg, hmem, hbsg⟩)
    · exact getD_blocks_nonneg segs i H b hbsg
  · rcases List.mem_or_eq_of_mem_set hsg with hmem | rfl
    · rcases List.mem_or_eq_of_mem_set hmem with hmem' | rfl
      · exact H b (List.mem_flatMap.mpr ⟨sg, hmem', hbsg⟩)
      · exact getD_blocks_nonneg segs (i + 1) H b hbsg
    · obtain rfl := List.mem_singleton.mp hbsg
      exact block_new_distance_nonneg _ _ _ _ _
  · rcases List.mem_or_eq_of_mem_set hsg with hmem | rfl
    · rcases List.mem_or_eq_of_mem_set hmem with hmem' | rfl
      · exact H b (List.mem_flatMap.mpr ⟨sg, hmem', hbsg⟩)
      · exact getD_blocks_nonneg segs (i + 1) H b hbsg
    · simp only [List.mem_cons, List.mem_singleton, List.not_mem_nil, or_false] at hbsg
      rcases hbsg with rfl | rfl | rfl
      all_goals exact block_new_distance_nonneg _ _ _ _ _
  · rcases List.mem_or_eq_of_mem_set hsg with hmem | rfl
    · rcases List.mem_or_eq_of_mem_set hmem with hmem' | rfl
      · exact H b (List.mem_flatMap.mpr ⟨sg, hmem', hbsg⟩)
      · exact getD_blocks_nonneg segs (i + 1) H b hbsg
    · simp only [List.mem_cons, List.mem_singleton, List.not_mem_nil, or_false] at hbsg
      rcases hbsg with rfl | rfl
      all_goals exact block_new_distance_nonneg _ _ _ _ _

theorem planLoop_blocks_nonneg (a : ℝ) (fuel : ℕ) (segs : List Segment) (i : ℕ)
    (H : ∀ b ∈ segs.flatMap Segment.blocks, 0 ≤ b.distance) :
    ∀ b ∈ (planLoop a fuel segs i).flatMap Segment.blocks, 0 ≤ b.distance := by
  induction fuel generalizing segs i with
  | zero => exact H
  | succ n ih =>
    simp only [planLoop]
    split_ifs with h1 h2
    · exact ih (planStep a segs i).1 (planStep a segs i).2.1
        (planStep_blocks_nonneg a segs i H)
    · exact planStep_blocks_nonneg a segs i H
    · exact H

theorem mkSegments_blocks_nil (pts : List Point) :
    ∀ sg ∈ mkSegments pts, sg.blocks = [] := by
  induction pts with
  | nil => simp [mkSegments]
  | cons p rest ih =>
    rcases rest with _ | ⟨q, rest'⟩
    · simp [mkSegments]
    · intro sg hsg
      rcases List.mem_cons.mp hsg with rfl | hmem
      · rfl
      · exact ih sg hmem

theorem cornerPassGo_blocks_nil (v a cf : ℝ) (prev : Segment) (l : List Segment)
    (h : ∀ s ∈ l, s.blocks = []) :
    ∀ sg ∈ cornerPassGo v a cf prev l, sg.blocks = [] := by
  induction l generalizing prev with
  | nil => simp [cornerPassGo]
  | cons s rest ih =>
    intro sg hsg
    rcases List.mem_cons.mp hsg with rfl | hmem
    · exact h s (List.mem_cons_self s rest)
    · exact ih { s with maxEntryVelocity := cornerVelocity prev s v a cf }
        (fun x hx => h x (List.mem_cons_of_mem s hx)) sg hmem

theorem cornerPass_blocks_nil (segs : List Segment) (v a cf : ℝ)
    (h : ∀ s ∈ segs, s.blocks = []) :
    ∀ sg ∈ cornerPass segs v a cf, sg.blocks = [] := by
  rcases segs with _ | ⟨s, rest⟩
  · simp [cornerPass]
  · intro sg hsg
    rcases List.mem_cons.mp hsg with rfl | hmem
    · exact h sg (List.mem_cons_self sg rest)
    · exact cornerPassGo_blocks_nil v a cf s rest
        (fun x hx => h x (List.mem_cons_of_mem s hx)) sg hmem

theorem Point.add_def (p q : Point) : p + q = ⟨p.x + q.x, p.y + q.y⟩ := rfl

theorem Point.sub_def (p q : Point) : p - q = ⟨p.x - q.x, p.y - q.y⟩ := rfl

theorem triangularProfile_s1 (s vi vf a : ℝ) (p1 p3 : Point) :
    (triangularProfile s vi vf a p1 p3).s1 = (2 * a * s + vf * vf - vi * vi) / (4 * a) := rfl

theorem triangularProfile_s2 (s vi vf a : ℝ) (p1 p3 : Point) :
    (triangularProfile s vi vf a p1 p3).s2 =
      s - (2 * a * s + vf * vf - vi * vi) / (4 * a) := rfl

theorem triangularProfile_vmax (s vi vf a : ℝ) (p1 p3 : Point) :
    (triangularProfile s vi vf a p1 p3).vmax =
      Real.sqrt (vi * vi + 2 * a * ((2 * a * s + vf * vf - vi * vi) / (4 * a))) := rfl

theorem trapezoidalProfile_sCruise (s vi vmax vf a : ℝ) (p1 p4 : Point) :
    (trapezoidalProfile s vi vmax vf a p1 p4).sCruise =
      s - (vmax * vmax - vi * vi) / (2 * a) - (vmax * vmax - vf * vf) / (2 * a) := rfl

theorem trapezoidalProfile_t1 (s vi vmax vf a : ℝ) (p1 p4 : Point) :
    (trapezoidalProfile s vi vmax vf a p1 p4).t1 = (vmax - vi) / a := rfl

theorem trapezoidalProfile_t2 (s vi vmax vf a : ℝ) (p1 p4 : Point) :
    (trapezoidalProfile s vi vmax vf a p1 p4).t2 =
      (s - (vmax * vmax - vi * vi) / (2 * a) - (vmax * vmax - vf * vf) / (2 * a)) / vmax := rfl

theorem trapezoidalProfile_t3 (s vi vmax vf a : ℝ) (p1 p4 : Point) :
    (trapezoidalProfile s vi vmax vf a p1 p4).t3 = (vmax - vf) / a := rfl

theorem trapezoidalProfile_p1 (s vi vmax vf a : ℝ) (p1 p4 : Point) :
    (trapezoidalProfile s vi vmax vf a p1 p4).p1 = p1 := rfl

theorem trapezoidalProfile_p2 (s vi vmax vf a : ℝ) (p1 p4 : Point) :
    (trapezoidalProfile s vi vmax vf a p1 p4).p2 =
      p1.lerps p4 ((vmax * vmax - vi * vi) / (2 * a)) := rfl

theorem trapezoidalProfile_p3 (s vi vmax vf a : ℝ) (p1 p4 : Point) :
    (trapezoidalProfile s vi vmax vf a p1 p4).p3 =
      p1.lerps p4 (s - (vmax * vmax - vf * vf) / (2 * a)) := rfl

theorem trapezoidalProfile_p4 (s vi vmax vf a : ℝ) (p1 p4 : Point) :
    (trapezoidalProfile s vi vmax vf a p1 p4).p4 = p4 := rfl

theorem segment_new_p1 (p q : Point) : (Segment.new p q).p1 = p := rfl

theorem segment_new_p2 (p q : Point) : (Segment.new p q).p2 = q := rfl

theorem segment_new_length (p q : Point) : (Segment.new p q).length = p.distance q := rfl

theorem segment_new_maxEntryVelocity (p q : Point) :
    (Segment.new p q).maxEntryVelocity = 0 := rfl

theorem segment_new_entryVelocity (p q : Point) : (Segment.new p q).entryVelocity = 0 := rfl

theorem point_distance_00_50 : Point.distance ⟨0, 0⟩ ⟨5, 0⟩ = 5 := by
  show Real.sqrt (((0:ℝ) - 5) ^ 2 + ((0:ℝ) - 0) ^ 2) = 5
  rw [show ((0:ℝ) - 5) ^ 2 + ((0:ℝ) - 0) ^ 2 = 5 ^ 2 by norm_num]
  exact Real.sqrt_sq (by norm_num)

theorem lerps_scalar_zero (p q : Point) (s : ℝ) (hs : s = 0) : p.lerps q s = p := by
  subst hs
  show p + Point.scale 0 (Point.normalize (q - p)) = p
  rcases p with ⟨px, py⟩
  simp [Point.scale, Point.add_def]

theorem normalize_50 : Point.normalize ((⟨5, 0⟩ : Point) - ⟨0, 0⟩) = ⟨1, 0⟩ := by
  rw [Point.sub_def]
  show (if Real.sqrt (((5:ℝ) - 0) ^ 2 + ((0:ℝ) - 0) ^ 2) = 0 then (⟨0, 0⟩ : Point)
    else ⟨((5:ℝ) - 0) / Real.sqrt (((5:ℝ) - 0) ^ 2 + ((0:ℝ) - 0) ^ 2),
          ((0:ℝ) - 0) / Real.sqrt (((5:ℝ) - 0) ^ 2 + ((0:ℝ) - 0) ^ 2)⟩) = ⟨1, 0⟩
  have h5 : Real.sqrt (((5:ℝ) - 0) ^ 2 + ((0:ℝ) - 0) ^ 2) = 5 := by
    rw [show ((5:ℝ) - 0) ^ 2 + ((0:ℝ) - 0) ^ 2 = 5 ^ 2 by norm_num]
    exact Real.sqrt_sq (by norm_num)
  rw [h5]
  rw [if_neg (by norm_num)]
  norm_num

theorem lerps_00_50_0 : Point.lerps ⟨0, 0⟩ ⟨5, 0⟩ 0 = (⟨0, 0⟩ : Point) :=
  lerps_scalar_zero _ _ _ rfl

theorem lerps_00_50_5 : Point.lerps ⟨0, 0⟩ ⟨5, 0⟩ 5 = (⟨5, 0⟩ : Point) := by
  show (⟨0, 0⟩ : Point) + Point.scale 5 (Point.normalize ((⟨5, 0⟩ : Point) - ⟨0, 0⟩)) = _
  rw [normalize_50]
  show (⟨0, 0⟩ : Point) + ⟨5 * 1, 5 * 0⟩ = _
  rw [Point.add_def]
  norm_num

/-- C1 (code bug): for the polyline (0,0)→(5,0) with `a = 16`, `vmax = 20`,
`cf = 0.001`, the forward pass of `Plan::new` compares the triangular peak
`√80 ≈ 8.94` against the first segment's own `max_entry_velocity`, which is
never assigned and stays 0, so the trapezoid branch runs with cruise ceiling 0:
it emits a cruise block whose duration is `s_cruise / vmax = 5 / 0` (`+∞` in
`f64`), so the plan does not end at rest as the claim requires. -/
theorem plan_first_segment_zero_ceiling :
    dedupPoints [(⟨0, 0⟩ : Point), ⟨5, 0⟩] epsPlan = [⟨0, 0⟩, ⟨5, 0⟩] ∧
    (cornerPass (mkSegments [(⟨0, 0⟩ : Point), ⟨5, 0⟩]) 20 16 (1 / 1000) ++
      [Segment.new ⟨5, 0⟩ ⟨5, 0⟩]) =
      [Segment.new ⟨0, 0⟩ ⟨5, 0⟩, Segment.new ⟨5, 0⟩ ⟨5, 0⟩] ∧
    (Segment.new (⟨0, 0⟩ : Point) ⟨5, 0⟩).maxEntryVelocity = 0 ∧
    (Segment.new (⟨0, 0⟩ : Point) ⟨5, 0⟩).entryVelocity = 0 ∧
    (Segment.new (⟨0, 0⟩ : Point) ⟨5, 0⟩).length = 5 ∧
    (triangularProfile 5 0 0 16 ⟨0, 0⟩ ⟨5, 0⟩).s1 = 5 / 2 ∧
    ¬ ((triangularProfile 5 0 0 16 ⟨0, 0⟩ ⟨5, 0⟩).s1 < -epsPlan) ∧
    ¬ ((triangularProfile 5 0 0 16 ⟨0, 0⟩ ⟨5, 0⟩).s2 ≤ 0) ∧
    (triangularProfile 5 0 0 16 ⟨0, 0⟩ ⟨5, 0⟩).vmax = Real.sqrt 80 ∧
    (Segment.new (⟨0, 0⟩ : Point) ⟨5, 0⟩).maxEntryVelocity + epsPlan < Real.sqrt 80 ∧
    (trapezoidalProfile 5 0 0 0 16 ⟨0, 0⟩ ⟨5, 0⟩).sCruise = 5 ∧
    ((planStep 16 [Segment.new ⟨0, 0⟩ ⟨5, 0⟩, Segment.new ⟨5, 0⟩ ⟨5, 0⟩] 0).1.getD 0
        segDefault).blocks =
      [Block.new 16 0 0 ⟨0, 0⟩ ⟨0, 0⟩,
       Block.new 0 ((5 : ℝ) / 0) 0 ⟨0, 0⟩ ⟨5, 0⟩,
       Block.new (-16) 0 0 ⟨5, 0⟩ ⟨5, 0⟩] ∧
    (planStep 16 [Segment.new ⟨0, 0⟩ ⟨5, 0⟩, Segment.new ⟨5, 0⟩ ⟨5, 0⟩] 0).2 = (1, true) := by
  have hdist := point_distance_00_50
  have hsqrt80 : epsPlan < Real.sqrt 80 := by
    rw [show epsPlan = |epsPlan| from (abs_of_pos epsPlan_pos).symm, ← Real.sqrt_sq_eq_abs]
    exact Real.sqrt_lt_sqrt (by positivity) (by norm_num [epsPlan])
  have hnot1 : ¬ ((2 * 16 * Point.distance ⟨0, 0⟩ ⟨5, 0⟩ +
      min (0:ℝ) 0 * min (0:ℝ) 0 - 0 * 0) / (4 * 16) < -epsPlan) := by
    rw [hdist]
    norm_num [epsPlan]
  have hnot2 : ¬ (Point.distance ⟨0, 0⟩ ⟨5, 0⟩ - (2 * 16 * Point.distance ⟨0, 0⟩ ⟨5, 0⟩ +
      min (0:ℝ) 0 * min (0:ℝ) 0 - 0 * 0) / (4 * 16) ≤ 0) := by
    rw [hdist]
    norm_num
  have h80 : (0:ℝ) * 0 + 2 * 16 * ((2 * 16 * Point.distance ⟨0, 0⟩ ⟨5, 0⟩ +
      min (0:ℝ) 0 * min (0:ℝ) 0 - 0 * 0) / (4 * 16)) = 80 := by
    rw [hdist]
    norm_num
  have hyes3 : Real.sqrt ((0:ℝ) * 0 + 2 * 16 * ((2 * 16 * Point.distance ⟨0, 0⟩ ⟨5, 0⟩ +
      min (0:ℝ) 0 * min (0:ℝ) 0 - 0 * 0) / (4 * 16))) > (0:ℝ) + epsPlan := by
    rw [h80, zero_add]
    exact hsqrt80
  refine ⟨?_, rfl, rfl, rfl, hdist, ?_, ?_, ?_, ?_, ?_, ?_, ?_, ?_⟩
  · simp only [dedupPoints, dedupGo]
    rw [hdist, if_pos (by norm_num [epsPlan])]
  · rw [triangularProfile_s1]
    norm_num
  · rw [triangularProfile_s1]
    norm_num [epsPlan]
  · rw [triangularProfile_s2]
    norm_num
  · rw [triangularProfile_vmax]
    congr 1
    norm_num
  · show (0 : ℝ) + epsPlan < Real.sqrt 80
    rw [zero_add]
    exact hsqrt80
  · rw [trapezoidalProfile_sCruise]
    norm_num
  · simp only [planStep, List.getD_cons_zero, List.getD_cons_succ]
    split_ifs with h1 hI h2 h3
    · exact absurd h1 hnot1
    · exact absurd h1 hnot1
    · exact absurd h2 hnot2
    · simp only [List.set_cons_zero, List.set_cons_succ, List.getD_cons_zero,
        trapezoidalProfile_t1, trapezoidalProfile_t2, trapezoidalProfile_t3,
        trapezoidalProfile_p1, trapezoidalProfile_p2, trapezoidalProfile_p3,
        trapezoidalProfile_p4, segment_new_p1, segment_new_p2, segment_new_length,
        segment_new_maxEntryVelocity, segment_new_entryVelocity, point_distance_00_50,
        min_self]
      norm_num [lerps_00_50_0, lerps_00_50_5]
    · exact absurd hyes3 h3
  · simp only [planStep, List.getD_cons_zero, List.getD_cons_succ]
    split_ifs with h1 hI h2 h3
    · exact absurd h1 hnot1
    · exact absurd h1 hnot1
    · exact absurd h2 hnot2
    · rfl
    · exact absurd hyes3 h3

/-- C2 (amended): `corner_velocity` computes `cos = −(u1·u2)` and returns 0
when `|cos − 1| < ε`, `vmax` when `|sin − 1| < ε` with `sin = √((1 − cos)/2)`,
and `min(√(a·cf·sin/(1 − sin)), vmax)` otherwise — where ε is
`std::f64::EPSILON` = 2⁻⁵², not 1e-9. -/
theorem corner_velocity_cases (s1 s2 : Segment) (vmax a cf : ℝ) :
    (|-(s1.vector.dot s2.vector) - 1| < f64Epsilon →
      cornerVelocity s1 s2 vmax a cf = 0) ∧
    (¬ |-(s1.vector.dot s2.vector) - 1| < f64Epsilon →
      |Real.sqrt ((1 - -(s1.vector.dot s2.vector)) / 2) - 1| < f64Epsilon →
      cornerVelocity s1 s2 vmax a cf = vmax) ∧
    (¬ |-(s1.vector.dot s2.vector) - 1| < f64Epsilon →
      ¬ |Real.sqrt ((1 - -(s1.vector.dot s2.vector)) / 2) - 1| < f64Epsilon →
      cornerVelocity s1 s2 vmax a cf =
        min (Real.sqrt ((a * cf * Real.sqrt ((1 - -(s1.vector.dot s2.vector)) / 2)) /
          (1 - Real.sqrt ((1 - -(s1.vector.dot s2.vector)) / 2)))) vmax) := by
  refine ⟨?_, ?_, ?_⟩
  · intro h1
    simp only [cornerVelocity]
    rw [if_pos h1]
  · intro h1 h2
    simp only [cornerVelocity]
    rw [if_neg h1, if_pos h2]
  · intro h1 h2
    simp only [cornerVelocity]
    rw [if_neg h1, if_neg h2]

theorem segment_vector_unit_x (p q : Point) (hx : q.x - p.x = 1) (hy : q.y - p.y = 0) :
    (Segment.new p q).vector = ⟨1, 0⟩ := by
  show Point.normalize (q - p) = _
  rw [Point.sub_def]
  show (if Real.sqrt ((q.x - p.x) ^ 2 + (q.y - p.y) ^ 2) = 0 then (⟨0, 0⟩ : Point)
    else ⟨(q.x - p.x) / Real.sqrt ((q.x - p.x) ^ 2 + (q.y - p.y) ^ 2),
          (q.y - p.y) / Real.sqrt ((q.x - p.x) ^ 2 + (q.y - p.y) ^ 2)⟩) = ⟨1, 0⟩
  rw [hx, hy]
  rw [show ((1:ℝ) ^ 2 + 0 ^ 2) = 1 by norm_num, Real.sqrt_one]
  rw [if_neg one_ne_zero]
  norm_num

/-- Witness for C2 (amended): a straight-through corner (collinear segments)
falls in the second case and returns `vmax`. -/
theorem corner_velocity_cases_witness :
    ¬ |-((Segment.new (⟨0, 0⟩ : Point) ⟨1, 0⟩).vector.dot
        (Segment.new (⟨1, 0⟩ : Point) ⟨2, 0⟩).vector) - 1| < f64Epsilon ∧
    |Real.sqrt ((1 - -((Segment.new (⟨0, 0⟩ : Point) ⟨1, 0⟩).vector.dot
        (Segment.new (⟨1, 0⟩ : Point) ⟨2, 0⟩).vector)) / 2) - 1| < f64Epsilon ∧
    cornerVelocity (Segment.new ⟨0, 0⟩ ⟨1, 0⟩) (Segment.new ⟨1, 0⟩ ⟨2, 0⟩) 5 1 1 = 5 := by
  have hvA : (Segment.new (⟨0, 0⟩ : Point) ⟨1, 0⟩).vector = ⟨1, 0⟩ :=
    segment_vector_unit_x _ _ (by norm_num) (by norm_num)
  have hvB : (Segment.new (⟨1, 0⟩ : Point) ⟨2, 0⟩).vector = ⟨1, 0⟩ :=
    segment_vector_unit_x _ _ (by norm_num) (by norm_num)
  have hdot : (Segment.new (⟨0, 0⟩ : Point) ⟨1, 0⟩).vector.dot
      (Segment.new (⟨1, 0⟩ : Point) ⟨2, 0⟩).vector = 1 := by
    rw [hvA, hvB]
    show (1:ℝ) * 1 + 0 * 0 = 1
    norm_num
  have h1 : ¬ |-((Segment.new (⟨0, 0⟩ : Point) ⟨1, 0⟩).vector.dot
      (Segment.new (⟨1, 0⟩ : Point) ⟨2, 0⟩).vector) - 1| < f64Epsilon := by
    rw [hdot]
    rw [show |-(1:ℝ) - 1| = 2 by rw [abs_of_nonpos (by norm_num)]; norm_num]
    norm_num [f64Epsilon]
  have h2 : |Real.sqrt ((1 - -((Segment.new (⟨0, 0⟩ : Point) ⟨1, 0⟩).vector.dot
      (Segment.new (⟨1, 0⟩ : Point) ⟨2, 0⟩).vector)) / 2) - 1| < f64Epsilon := by
    rw [hdot]
    rw [show ((1:ℝ) - -1) / 2 = 1 by norm_num, Real.sqrt_one]
    norm_num [f64Epsilon]
  exact ⟨h1, h2, (corner_velocity_cases (Segment.new ⟨0, 0⟩ ⟨1, 0⟩)
    (Segment.new ⟨1, 0⟩ ⟨2, 0⟩) 5 1 1).2.1 h1 h2⟩

/-- C2 counterexample: two segments meeting at a near-reversal, with
`|cos − 1| ≈ 5·10⁻¹³` — below the 1e-9 threshold the claim prescribes, so the
claim demands a returned value of 0, but the code compares against
`f64::EPSILON` = 2⁻⁵² and returns a strictly positive velocity. -/
theorem corner_velocity_epsilon_counterexample :
    |-((Segment.new (⟨0, 0⟩ : Point) ⟨1000000, 0⟩).vector.dot
        (Segment.new (⟨1000000, 0⟩ : Point) ⟨0, 1⟩).vector) - 1| < 1 / 10 ^ 9 ∧
    cornerVelocity (Segment.new ⟨0, 0⟩ ⟨1000000, 0⟩)
      (Segment.new ⟨1000000, 0⟩ ⟨0, 1⟩) 1 1 1 ≠ 0 := by
  have hvA : (Segment.new (⟨0, 0⟩ : Point) ⟨1000000, 0⟩).vector = ⟨1, 0⟩ := by
    show Point.normalize ((⟨1000000, 0⟩ : Point) - ⟨0, 0⟩) = _
    rw [Point.sub_def]
    show (if Real.sqrt (((1000000:ℝ) - 0) ^ 2 + ((0:ℝ) - 0) ^ 2) = 0 then (⟨0, 0⟩ : Point)
      else ⟨((1000000:ℝ) - 0) / Real.sqrt (((1000000:ℝ) - 0) ^ 2 + ((0:ℝ) - 0) ^ 2),
            ((0:ℝ) - 0) / Real.sqrt (((1000000:ℝ) - 0) ^ 2 + ((0:ℝ) - 0) ^ 2)⟩) = ⟨1, 0⟩
    rw [show ((1000000:ℝ) - 0) ^ 2 + ((0:ℝ) - 0) ^ 2 = 1000000 ^ 2 by norm_num,
      Real.sqrt_sq (by norm_num : (0:ℝ) ≤ 1000000)]
    rw [if_neg (by norm_num)]
    norm_num
  have hR0 : (0:ℝ) < Real.sqrt (10 ^ 12 + 1) := Real.sqrt_pos.mpr (by norm_num)
  have hRne : Real.sqrt (10 ^ 12 + 1) ≠ 0 := ne_of_gt hR0
  have hRl : (1000000:ℝ) < Real.sqrt (10 ^ 12 + 1) :=
    (Real.lt_sqrt (by norm_num)).mpr (by norm_num)
  have hRu : Real.sqrt (10 ^ 12 + 1) < 1000001 :=
    (Real.sqrt_lt' (by norm_num)).mpr (by norm_num)
  have hRsq : Real.sqrt (10 ^ 12 + 1) ^ 2 = 10 ^ 12 + 1 := Real.sq_sqrt (by norm_num)
  have hvB : (Segment.new (⟨1000000, 0⟩ : Point) ⟨0, 1⟩).vector =
      ⟨-(1000000 / Real.sqrt (10 ^ 12 + 1)), 1 / Real.sqrt (10 ^ 12 + 1)⟩ := by
    show Point.normalize ((⟨0, 1⟩ : Point) - ⟨1000000, 0⟩) = _
    rw [Point.sub_def]
    show (if Real.sqrt (((0:ℝ) - 1000000) ^ 2 + ((1:ℝ) - 0) ^ 2) = 0 then (⟨0, 0⟩ : Point)
      else ⟨((0:ℝ) - 1000000) / Real.sqrt (((0:ℝ) - 1000000) ^ 2 + ((1:ℝ) - 0) ^ 2),
            ((1:ℝ) - 0) / Real.sqrt (((0:ℝ) - 1000000) ^ 2 + ((1:ℝ) - 0) ^ 2)⟩) = _
    rw [show ((0:ℝ) - 1000000) ^ 2 + ((1:ℝ) - 0) ^ 2 = 10 ^ 12 + 1 by norm_num]
    rw [if_neg hRne]
    rw [show ((0:ℝ) - 1000000) = -1000000 by norm_num, show ((1:ℝ) - 0) = 1 by norm_num,
      neg_div]
  have hdot : (Segment.new (⟨0, 0⟩ : Point) ⟨1000000, 0⟩).vector.dot
      (Segment.new (⟨1000000, 0⟩ : Point) ⟨0, 1⟩).vector =
      -(1000000 / Real.sqrt (10 ^ 12 + 1)) := by
    rw [hvA, hvB]
    show (1:ℝ) * -(1000000 / Real.sqrt (10 ^ 12 + 1)) +
      0 * (1 / Real.sqrt (10 ^ 12 + 1)) = _
    ring
  have hprod : (Real.sqrt (10 ^ 12 + 1) - 1000000) * (Real.sqrt (10 ^ 12 + 1) + 1000000)
      = 1 := by nlinarith [hRsq]
  have h1mc : 1 - 1000000 / Real.sqrt (10 ^ 12 + 1) =
      1 / ((Real.sqrt (10 ^ 12 + 1) + 1000000) * Real.sqrt (10 ^ 12 + 1)) := by
    rw [eq_div_iff (by positivity)]
    field_simp
    nlinarith [hprod]
  have hposc : (0:ℝ) < 1 - 1000000 / Real.sqrt (10 ^ 12 + 1) := by
    rw [h1mc]
    positivity
  have hub : 1 - 1000000 / Real.sqrt (10 ^ 12 + 1) < 1 / 10 ^ 9 := by
    rw [h1mc, div_lt_div_iff (by positivity) (by norm_num : (0:ℝ) < 10 ^ 9)]
    nlinarith [hRl, hR0]
  have hlb : f64Epsilon ≤ 1 - 1000000 / Real.sqrt (10 ^ 12 + 1) := by
    rw [h1mc, f64Epsilon, div_le_div_iff (by norm_num : (0:ℝ) < 2 ^ 52) (by positivity)]
    nlinarith [hRu, hR0, hRl]
  have habs : |-(-(1000000 / Real.sqrt (10 ^ 12 + 1))) - 1| =
      1 - 1000000 / Real.sqrt (10 ^ 12 + 1) := by
    rw [neg_neg, abs_sub_comm, abs_of_pos hposc]
  constructor
  · rw [hdot, habs]
    exact hub
  · have hg1 : ¬ |-((Segment.new (⟨0, 0⟩ : Point) ⟨1000000, 0⟩).vector.dot
        (Segment.new (⟨1000000, 0⟩ : Point) ⟨0, 1⟩).vector) - 1| < f64Epsilon := by
      rw [hdot, habs]
      exact not_lt.mpr hlb
    have hsine_pos : 0 < Real.sqrt ((1 - -((Segment.new (⟨0, 0⟩ : Point)
        ⟨1000000, 0⟩).vector.dot (Segment.new (⟨1000000, 0⟩ : Point) ⟨0, 1⟩).vector)) / 2)
        := by
      rw [hdot, neg_neg]
      exact Real.sqrt_pos.mpr (by positivity)
    have hsine_lt : Real.sqrt ((1 - -((Segment.new (⟨0, 0⟩ : Point)
        ⟨1000000, 0⟩).vector.dot (Segment.new (⟨1000000, 0⟩ : Point) ⟨0, 1⟩).vector)) / 2)
        < 1 / 1000 := by
      rw [hdot, neg_neg]
      rw [Real.sqrt_lt' (by norm_num : (0:ℝ) < 1 / 1000)]
      nlinarith [hub]
    have hg2 : ¬ |Real.sqrt ((1 - -((Segment.new (⟨0, 0⟩ : Point)
        ⟨1000000, 0⟩).vector.dot (Segment.new (⟨1000000, 0⟩ : Point) ⟨0, 1⟩).vector)) / 2)
        - 1| < f64Epsilon := by
      rw [abs_sub_comm, abs_of_pos (by linarith)]
      rw [f64Epsilon]
      intro hcon
      have : (1:ℝ) / 2 ^ 52 < 1 / 1000 := by norm_num
      linarith
    simp only [cornerVelocity]
    rw [if_neg hg1, if_neg hg2]
    have hden_pos : 0 < 1 - Real.sqrt ((1 - -((Segment.new (⟨0, 0⟩ : Point)
        ⟨1000000, 0⟩).vector.dot (Segment.new (⟨1000000, 0⟩ : Point) ⟨0, 1⟩).vector)) / 2)
        := by linarith
    have harg_pos : 0 < (1 * 1 * Real.sqrt ((1 - -((Segment.new (⟨0, 0⟩ : Point)
        ⟨1000000, 0⟩).vector.dot (Segment.new (⟨1000000, 0⟩ : Point) ⟨0, 1⟩).vector)) / 2))
        / (1 - Real.sqrt ((1 - -((Segment.new (⟨0, 0⟩ : Point)
        ⟨1000000, 0⟩).vector.dot (Segment.new (⟨1000000, 0⟩ : Point) ⟨0, 1⟩).vector)) / 2))
        := by
      apply div_pos
      · nlinarith [hsine_pos]
      · exact hden_pos
    have : 0 < min (Real.sqrt ((1 * 1 * Real.sqrt ((1 - -((Segment.new (⟨0, 0⟩ : Point)
        ⟨1000000, 0⟩).vector.dot (Segment.new (⟨1000000, 0⟩ : Point) ⟨0, 1⟩).vector)) / 2))
        / (1 - Real.sqrt ((1 - -((Segment.new (⟨0, 0⟩ : Point)
        ⟨1000000, 0⟩).vector.dot (Segment.new (⟨1000000, 0⟩ : Point) ⟨0, 1⟩).vector)) / 2))))
        (1:ℝ) := by
      apply lt_min
      · exact Real.sqrt_pos.mpr harg_pos
      · norm_num
    exact ne_of_gt this

/-- C6: every plan returned by `Plan::new` satisfies the index invariants:
`times` and `distances` have the same length as `blocks`, start at 0, are the
prefix sums of the block durations and distances, are monotonically increasing,
and the totals equal the corresponding sums. -/
theorem plan_index_invariants (fuel : ℕ) (pts : List Point) (a v cf : ℝ) (pl : Plan)
    (h : planNew fuel pts a v cf = some pl) :
    pl.times.length = pl.blocks.length ∧
    pl.distances.length = pl.blocks.length ∧
    (pl.blocks ≠ [] → pl.times.head? = some 0 ∧ pl.distances.head? = some 0) ∧
    (∀ i, i + 1 < pl.blocks.length →
      pl.times.getD (i + 1) 0 = pl.times.getD i 0 +
        (pl.blocks.getD i (Block.new 0 0 0 ⟨0, 0⟩ ⟨0, 0⟩)).duration ∧
      pl.distances.getD (i + 1) 0 = pl.distances.getD i 0 +
        (pl.blocks.getD i (Block.new 0 0 0 ⟨0, 0⟩ ⟨0, 0⟩)).distance) ∧
    List.Pairwise (· ≤ ·) pl.times ∧
    List.Pairwise (· ≤ ·) pl.distances ∧
    pl.totalTime = (pl.blocks.map Block.duration).sum ∧
    pl.totalDistance = (pl.blocks.map Block.distance).sum := by
  simp only [planNew] at h
  by_cases hlen : (dedupPoints pts epsPlan).length = 1
  · rw [if_pos hlen] at h
    rcases hd : dedupPoints pts epsPlan with _ | ⟨p, rest⟩
    · rw [hd] at hlen
      simp at hlen
    · rw [hd] at h
      have hpl := Option.some.inj h
      subst hpl
      refine ⟨rfl, rfl, fun _ => ⟨rfl, rfl⟩, ?_, ?_, ?_, ?_, ?_⟩
      · intro i hi
        simp at hi
      · simp
      · simp
      · show (0:ℝ) = ([Block.new 0 0 0 p p].map Block.duration).sum
        simp [Block.new]
      · show (0:ℝ) = ([Block.new 0 0 0 p p].map Block.distance).sum
        simp [Block.new, Point.distance]
  · rw [if_neg hlen] at h
    rcases hq : (dedupPoints pts epsPlan).getLast? with _ | q
    · rw [hq] at h
      exact absurd h (by simp)
    · rw [hq] at h
      have hpl := Option.some.inj h
      subst hpl
      have H0 : ∀ b ∈ ((cornerPass (mkSegments (dedupPoints pts epsPlan)) v a cf ++
          [Segment.new q q]).flatMap Segment.blocks), 0 ≤ b.distance := by
        intro b hb
        rw [List.mem_flatMap] at hb
        obtain ⟨sg, hsg, hbsg⟩ := hb
        rcases List.mem_append.mp hsg with hL | hR
        · rw [cornerPass_blocks_nil (mkSegments (dedupPoints pts epsPlan)) v a cf
            (mkSegments_blocks_nil (dedupPoints pts epsPlan)) sg hL] at hbsg
          simp at hbsg
        · obtain rfl := List.mem_singleton.mp hR
          simp [Segment.new] at hbsg
      have hdur : ∀ b ∈ ((planLoop a fuel
          (cornerPass (mkSegments (dedupPoints pts epsPlan)) v a cf ++
            [Segment.new q q]) 0).flatMap Segment.blocks).filter
          (fun b => b.duration > epsPlan), 0 ≤ b.duration := by
        intro b hb
        have := of_decide_eq_true (List.mem_filter.mp hb).2
        have hp := epsPlan_pos
        linarith
      have hdist : ∀ b ∈ ((planLoop a fuel
          (cornerPass (mkSegments (dedupPoints pts epsPlan)) v a cf ++
            [Segment.new q q]) 0).flatMap Segment.blocks).filter
          (fun b => b.duration > epsPlan), 0 ≤ b.distance := by
        intro b hb
        exact planLoop_blocks_nonneg a fuel _ 0 H0 b (List.mem_of_mem_filter hb)
      obtain ⟨l1, l2, hheads, ht, hs2⟩ := accumulate_spec (((planLoop a fuel
        (cornerPass (mkSegments (dedupPoints pts epsPlan)) v a cf ++
          [Segment.new q q]) 0).flatMap Segment.blocks).filter
        (fun b => b.duration > epsPlan)) 0 0
      obtain ⟨hc1, hc2⟩ := accumulate_chain (((planLoop a fuel
        (cornerPass (mkSegments (dedupPoints pts epsPlan)) v a cf ++
          [Segment.new q q]) 0).flatMap Segment.blocks).filter
        (fun b => b.duration > epsPlan)) 0 0 hdur hdist
      refine ⟨l1, l2, hheads, ?_, List.chain'_iff_pairwise.mp hc1,
        List.chain'_iff_pairwise.mp hc2, ?_, ?_⟩
      · intro i hi
        exact accumulate_getD _ 0 0 i hi
      · rw [ht, zero_add]
      · rw [hs2, zero_add]

/-- Witness for C6 at the single-point input. -/
theorem plan_index_invariants_witness :
    let pl := Plan.mk [Block.new 0 0 0 ⟨0, 0⟩ ⟨0, 0⟩] 0 0 [0] [0]
    pl.times.length = pl.blocks.length ∧
    pl.distances.length = pl.blocks.length ∧
    (pl.blocks ≠ [] → pl.times.head? = some 0 ∧ pl.distances.head? = some 0) ∧
    (∀ i, i + 1 < pl.blocks.length →
      pl.times.getD (i + 1) 0 = pl.times.getD i 0 +
        (pl.blocks.getD i (Block.new 0 0 0 ⟨0, 0⟩ ⟨0, 0⟩)).duration ∧
      pl.distances.getD (i + 1) 0 = pl.distances.getD i 0 +
        (pl.blocks.getD i (Block.new 0 0 0 ⟨0, 0⟩ ⟨0, 0⟩)).distance) ∧
    List.Pairwise (· ≤ ·) pl.times ∧
    List.Pairwise (· ≤ ·) pl.distances ∧
    pl.totalTime = (pl.blocks.map Block.duration).sum ∧
    pl.totalDistance = (pl.blocks.map Block.distance).sum :=
  plan_index_invariants 0 [⟨0, 0⟩] 16 20 (1 / 1000)
    (Plan.mk [Block.new 0 0 0 ⟨0, 0⟩ ⟨0, 0⟩] 0 0 [0] [0]) rfl

theorem digitChar_mem (n : ℕ) (h : n < 10) :
    Nat.digitChar n ∈ ['0', '1', '2', '3', '4', '5', '6', '7', '8', '9'] := by
  interval_cases n <;> decide

theorem toDigitsCore_mem (f : ℕ) : ∀ (n : ℕ) (acc : List Char),
    (∀ c ∈ acc, c ∈ ['0', '1', '2', '3', '4', '5', '6', '7', '8', '9']) →
    ∀ c ∈ Nat.toDigitsCore 10 f n acc,
      c ∈ ['0', '1', '2', '3', '4', '5', '6', '7', '8', '9'] := by
  induction f with
  | zero =>
    intro n acc hacc c hc
    simp only [Nat.toDigitsCore] at hc
    exact hacc c hc
  | succ m ih =>
    intro n acc hacc c hc
    simp only [Nat.toDigitsCore] at hc
    have hd : (n % 10).digitChar ∈ ['0', '1', '2', '3', '4', '5', '6', '7', '8', '9'] :=
      digitChar_mem _ (Nat.mod_lt _ (by norm_num))
    by_cases h0 : n / 10 = 0
    · rw [if_pos h0] at hc
      rcases List.mem_cons.mp hc with rfl | hmem
      · exact hd
      · exact hacc c hmem
    · rw [if_neg h0] at hc
      refine ih (n / 10) ((n % 10).digitChar :: acc) ?_ c hc
      intro x hx
      rcases List.mem_cons.mp hx with rfl | hmem
      · exact hd
      · exact hacc x hmem

theorem toDigitsCore_length (f : ℕ) : ∀ (n k : ℕ) (acc : List Char), 1 ≤ k →
    n < 10 ^ k → (Nat.toDigitsCore 10 f n acc).length ≤ acc.length + k := by
  induction f with
  | zero =>
    intro n k acc hk _
    simp only [Nat.toDigitsCore]
    omega
  | succ m ih =>
    intro n k acc hk hn
    simp only [Nat.toDigitsCore]
    by_cases h0 : n / 10 = 0
    · rw [if_pos h0]
      simp only [List.length_cons]
      omega
    · rw [if_neg h0]
      have hk2 : 2 ≤ k := by
        by_contra hcon
        have hk1 : k = 1 := by omega
        subst hk1
        simp only [pow_one] at hn
        omega
      have hdiv : n / 10 < 10 ^ (k - 1) := by
        apply Nat.div_lt_of_lt_mul
        calc n < 10 ^ k := hn
        _ = 10 * 10 ^ (k - 1) := by
            rw [← pow_succ']
            congr 1
            omega
      have := ih (n / 10) (k - 1) ((n % 10).digitChar :: acc) (by omega) hdiv
      simp only [List.length_cons] at this
      omega

theorem repr_chars (n : ℕ) :
    ∀ c ∈ (Nat.repr n).data, c ∈ ['0', '1', '2', '3', '4', '5', '6', '7', '8', '9'] := by
  intro c hc
  have hrw : (Nat.repr n).data = Nat.toDigitsCore 10 (n + 1) n [] := rfl
  rw [hrw] at hc
  exact toDigitsCore_mem (n + 1) n [] (by simp) c hc

theorem repr_length_le (n k : ℕ) (hk : 1 ≤ k) (hn : n < 10 ^ k) :
    (Nat.repr n).length ≤ k := by
  have hrw : (Nat.repr n).length = (Nat.toDigitsCore 10 (n + 1) n []).length := rfl
  rw [hrw]
  simpa using toDigitsCore_length (n + 1) n k [] hk hn

theorem digit_char_ok (c : Char)
    (h : c ∈ ['0', '1', '2', '3', '4', '5', '6', '7', '8', '9']) :
    c.toNat ≤ 127 ∧ (c == '\n' || c == '\r') = false ∧ c.isWhitespace = false := by
  fin_cases h <;> exact ⟨by decide, by decide, by decide⟩

theorem dropWhile_eq_self_of_none {p : Char → Bool} (l : List Char)
    (h : ∀ c ∈ l, p c = false) : l.dropWhile p = l := by
  cases l with
  | nil => rfl
  | cons a t =>
    rw [List.dropWhile_cons, h a (by simp)]
    simp

theorem trimStr_eq_self (s : String) (h : ∀ c ∈ s.data, c.isWhitespace = false) :
    trimStr s = s := by
  show (⟨((s.data.dropWhile Char.isWhitespace).reverse.dropWhile
    Char.isWhitespace).reverse⟩ : String) = s
  rw [dropWhile_eq_self_of_none s.data h,
    dropWhile_eq_self_of_none s.data.reverse (fun c hc => h c (List.mem_reverse.mp hc)),
    List.reverse_reverse]

theorem spCmd_data_head : ("SP,0," : String).data = ['S', 'P', ',', '0', ','] := rfl

theorem spCmd_chars (dt : ℕ) :
    ∀ c ∈ ("SP,0," ++ Nat.repr dt).data,
      c.toNat ≤ 127 ∧ (c == '\n' || c == '\r') = false ∧ c.isWhitespace = false := by
  intro c hc
  rw [String.data_append, spCmd_data_head] at hc
  rcases List.mem_append.mp hc with hpre | hrep
  · fin_cases hpre <;> exact ⟨by decide, by decide, by decide⟩
  · exact digit_char_ok c (repr_chars dt c hrep)

theorem spCmd_ne_empty (dt : ℕ) : ("SP,0," ++ Nat.repr dt) ≠ "" := by
  intro h
  have hdata := congrArg String.data h
  rw [String.data_append, spCmd_data_head] at hdata
  simp at hdata

theorem spCmd_ascii (dt : ℕ) : isAsciiStr ("SP,0," ++ Nat.repr dt) = true := by
  refine List.all_eq_true.mpr ?_
  intro c hc
  exact decide_eq_true (spCmd_chars dt c hc).1

theorem spCmd_crlf (dt : ℕ) : containsCrLf ("SP,0," ++ Nat.repr dt) = false := by
  refine List.any_eq_false.mpr ?_
  intro c hc
  rw [(spCmd_chars dt c hc).2.1]
  exact Bool.false_ne_true

theorem spCmd_trim (dt : ℕ) :
    trimStr ("SP,0," ++ Nat.repr dt) = "SP,0," ++ Nat.repr dt :=
  trimStr_eq_self _ (fun c hc => (spCmd_chars dt c hc).2.2)

theorem spCmd_len (dt : ℕ) (h : dt ≤ 65535) :
    (("SP,0," ++ Nat.repr dt) ++ "\r").length ≤ 256 := by
  have h1 : (("SP,0," ++ Nat.repr dt) ++ "\r").length =
      ("SP,0," : String).length + (Nat.repr dt).length + ("\r" : String).length := by
    rw [String.length_append, String.length_append]
  rw [h1]
  have h2 : (Nat.repr dt).length ≤ 5 :=
    repr_length_le dt 5 (by norm_num) (by omega)
  have h3 : ("SP,0," : String).length = 5 := rfl
  have h4 : ("\r" : String).length = 1 := rfl
  omega

theorem spCmd_noOk (dt : ℕ) :
    (noOkCommands.any fun c => startsWithStr (toUpperStr ("SP,0," ++ Nat.repr dt)) c)
      = false := by
  have hdata : (toUpperStr ("SP,0," ++ Nat.repr dt)).data =
      'S' :: 'P' :: ',' :: '0' :: ',' :: (Nat.repr dt).data.map Char.toUpper := by
    show ("SP,0," ++ Nat.repr dt).data.map Char.toUpper = _
    rw [String.data_append, spCmd_data_head]
    rfl
  simp only [noOkCommands, List.any_cons, List.any_nil, startsWithStr, hdata]
  rfl

/-- C8 counterexample: with `pen_up = 60`, `pen_down = 30`, `pen_down_speed = 7`
and zero delay, `pen_down` issues `SP,0,4285\r` (truncating integer division
`30000 / 7 = 4285`), while the claim's `round(1000·|60−30|/7) = round(4285.71…)`
is 4286: the issued wire command differs from the one the claim prescribes. -/
theorem pen_down_truncation_counterexample :
    penDown devSpeed7 "OK\r\n" =
      .ok ("SP,0,4285\r", { devSpeed7 with isLowered := true }) ∧
    round ((1000 * |(60:ℝ) - 30|) / 7) = 4286 ∧
    ("SP,0,4285\r" : String) ≠ "SP,0,4286\r" := by
  refine ⟨by rfl, ?_, by decide⟩
  rw [show (1000 * |(60:ℝ) - 30|) / 7 = 30000 / 7 by rw [abs_of_pos] <;> norm_num]
  rw [round_eq, show (30000:ℝ) / 7 + 1 / 2 = 60007 / 14 by ring]
  rw [Int.floor_eq_iff]
  norm_num

theorem commandRun_ok (cmd response : String)
    (hne : cmd ≠ "") (hascii : isAsciiStr cmd = true) (hcrlf : containsCrLf cmd = false)
    (htrim : trimStr cmd = cmd) (hlen : (cmd ++ "\r").length ≤ 256)
    (hnoOk : (noOkCommands.any fun c => startsWithStr (toUpperStr cmd) c) = false)
    (hr : endsWithStr response "OK\r\n" = true) :
    commandRun true cmd response =
      .ok (cmd ++ "\r", trimEndMatchesStr response "OK\r\n") := by
  simp only [commandRun]
  rw [if_neg hne]
  rw [hascii, hcrlf]
  rw [if_neg (by decide)]
  rw [htrim]
  rw [if_neg (Nat.not_lt.mpr hlen)]
  rw [if_neg (by decide)]
  rw [hnoOk]
  rw [if_pos (by decide)]
  rw [if_pos hr]

/-- C8 (amended): `pen_down` computes
`delay = max(0, (1000·|up − down|) div down_speed + down_delay)` with Rust's
truncating `i32` division (not rounding); whenever `1 ≤ delay ≤ 65535` it
issues exactly `SP,0,<delay>\r` and on a successful response sets the cached
`is_lowered` flag to true (delays outside that range are rejected as
`InvalidValue` before anything is written). -/
theorem pen_down_command (d : Device) (response : String)
    (hconn : d.connected = true)
    (hr : endsWithStr response "OK\r\n" = true)
    (h1 : 1 ≤ (max 0 (Int.tdiv (1000 * |d.penUpPosition - d.penDownPosition|)
      d.penDownSpeed + d.penDownDelay)).toNat)
    (h2 : (max 0 (Int.tdiv (1000 * |d.penUpPosition - d.penDownPosition|)
      d.penDownSpeed + d.penDownDelay)).toNat ≤ 65535) :
    penDown d response =
      .ok ("SP,0," ++ Nat.repr ((max 0 (Int.tdiv (1000 * |d.penUpPosition -
        d.penDownPosition|) d.penDownSpeed + d.penDownDelay)).toNat) ++ "\r",
        { d with isLowered := true }) := by
  have hdt : ∀ dt : ℕ, 1 ≤ dt → dt ≤ 65535 →
      penState d 0 (some dt) none response =
        .ok (("SP,0," ++ Nat.repr dt) ++ "\r", { d with isLowered := true }) := by
    intro dt hdt1 hdt2
    have hcr : commandRun d.connected (("SP," ++ Nat.repr 0) ++ "," ++ Nat.repr dt)
        response =
        .ok (("SP,0," ++ Nat.repr dt) ++ "\r", trimEndMatchesStr response "OK\r\n") := by
      rw [hconn]
      exact commandRun_ok ("SP,0," ++ Nat.repr dt) response (spCmd_ne_empty dt)
        (spCmd_ascii dt) (spCmd_crlf dt) (spCmd_trim dt) (spCmd_len dt hdt2)
        (spCmd_noOk dt) hr
    simp only [penState]
    split_ifs with hv hp hd
    · exact absurd hv (by decide)
    · exact hp.elim
    · simp only [Bool.or_eq_true, decide_eq_true_eq] at hd
      omega
    · rw [hcr]
      rfl
  exact hdt _ h1 h2

/-- Witness for C8 (amended) at the default configuration: up 60, down 30,
speed 150 gives the 200 ms delay of the spec's example. -/
theorem pen_down_command_witness :
    devBase.connected = true ∧
    endsWithStr "OK\r\n" "OK\r\n" = true ∧
    penDown devBase "OK\r\n" = .ok ("SP,0,200\r", { devBase with isLowered := true }) := by
  refine ⟨rfl, by decide, ?_⟩
  have h := pen_down_command devBase "OK\r\n" rfl (by decide) (by decide) (by decide)
  rw [h]
  rfl

theorem stripSuffixRep_not_suffix : ∀ (n : ℕ) (l pat : List Char), pat ≠ [] →
    l.length ≤ n → pat.isSuffixOf (stripSuffixRep n l pat) = false := by
  intro n
  induction n with
  | zero =>
    intro l pat hpat hl
    have hnil : l = [] := List.length_eq_zero.mp (Nat.le_zero.mp hl)
    subst hnil
    rw [show stripSuffixRep 0 [] pat = [] from rfl]
    rw [← Bool.not_eq_true, List.isSuffixOf_iff_suffix]
    intro hsuf
    exact hpat (List.suffix_nil.mp hsuf)
  | succ n ih =>
    intro l pat hpat hl
    show pat.isSuffixOf (if (pat.isSuffixOf l && !pat.isEmpty) = true then
      stripSuffixRep n (List.take (l.length - pat.length) l) pat else l) = false
    by_cases hc : (pat.isSuffixOf l && !pat.isEmpty) = true
    · rw [if_pos hc]
      have hsuf : pat <:+ l :=
        List.isSuffixOf_iff_suffix.mp (Bool.and_elim_left hc)
      have hplen : 1 ≤ pat.length := by
        rcases pat with _ | _
        · exact absurd rfl hpat
        · simp
      have hle : pat.length ≤ l.length := List.IsSuffix.length_le hsuf
      refine ih _ pat hpat ?_
      rw [List.length_take]
      omega
    · rw [if_neg hc]
      rcases Bool.and_eq_false_iff.mp (Bool.eq_false_iff.mpr hc) with h | h
      · exact h
      · exfalso
        rcases pat with _ | _
        · exact hpat rfl
        · simp at h

theorem trimEndMatchesStr_no_suffix (s : String) :
    endsWithStr (trimEndMatchesStr s "OK\r\n") "OK\r\n" = false :=
  stripSuffixRep_not_suffix s.data.length s.data ("OK\r\n").data (by decide) le_rfl

/-- C9 (amended): `Device::command` treats a command as exempt from the `OK`
check when its uppercased text has one of `V`, `I`, `A`, `MR`, `PI`, `QM` as a
prefix (not exact set membership); for any other command, a response ending in
`OK\r\n` yields `Ok` with every trailing repetition of `OK\r\n` stripped
(`trim_end_matches`), and any other response yields a `CommandError` (not
`InvalidResponse`); exempt commands return the raw response unmodified. -/
theorem command_response_handling (cmd response : String)
    (hne : cmd ≠ "") (hascii : isAsciiStr cmd = true) (hcrlf : containsCrLf cmd = false)
    (hlen : ¬ 256 < (trimStr cmd ++ "\r").length) :
    ((noOkCommands.any fun c => startsWithStr (toUpperStr cmd) c) = false →
      (endsWithStr response "OK\r\n" = true →
        commandRun true cmd response =
          .ok (trimStr cmd ++ "\r", trimEndMatchesStr response "OK\r\n") ∧
        endsWithStr (trimEndMatchesStr response "OK\r\n") "OK\r\n" = false) ∧
      (endsWithStr response "OK\r\n" = false →
        commandRun true cmd response =
          .error (.commandError cmd "Відповідь не містить очікуваного OK"))) ∧
    ((noOkCommands.any fun c => startsWithStr (toUpperStr cmd) c) = true →
      commandRun true cmd response = .ok (trimStr cmd ++ "\r", response)) := by
  constructor
  · intro hnoOk
    constructor
    · intro hok
      refine ⟨?_, trimEndMatchesStr_no_suffix response⟩
      simp only [commandRun]
      rw [if_neg hne, hascii, hcrlf, if_neg (by decide), if_neg hlen,
        if_neg (by decide), hnoOk, if_pos (by decide), if_pos hok]
    · intro hnok
      simp only [commandRun]
      rw [if_neg hne, hascii, hcrlf, if_neg (by decide), if_neg hlen,
        if_neg (by decide), hnoOk, if_pos (by decide), if_neg (by rw [hnok]; decide)]
  · intro hyes
    simp only [commandRun]
    rw [if_neg hne, hascii, hcrlf, if_neg (by decide), if_neg hlen,
      if_neg (by decide), hyes, if_neg (by decide)]

/-- C9 counterexample: for the command `CS` (not in the no-OK set) and the
response `"X"` lacking the `OK\r\n` terminator, `Device::command` returns a
`CommandError`, not the `InvalidResponse` the claim prescribes. -/
theorem command_missing_ok_error_kind :
    commandRun true "CS" "X" =
      .error (.commandError "CS" "Відповідь не містить очікуваного OK") ∧
    (DeviceError.commandError "CS" "Відповідь не містить очікуваного OK").isInvalidResponse
      = false := by
  exact ⟨rfl, rfl⟩

/-- Witness for C9 (amended): the command `CS` with a response carrying a
doubled terminator; both trailing `OK\r\n` repetitions are stripped. -/
theorem command_response_handling_witness :
    commandRun true "CS" "X,Y\r\nOK\r\nOK\r\n" = .ok ("CS\r", "X,Y\r\n") ∧
    endsWithStr "X,Y\r\n" "OK\r\n" = false := by
  have h := ((command_response_handling "CS" "X,Y\r\nOK\r\nOK\r\n" (by decide) (by decide)
    (by decide) (by decide)).1 (by decide)).1 (by decide)
  exact ⟨h.1, h.2⟩

/-- Witness for C5 (amended) at the single-point input. -/
theorem plan_blocks_duration_witness :
    epsPlan < (Block.new 0 0 0 (⟨0, 0⟩ : Point) ⟨0, 0⟩).duration ∨
      ((Block.new 0 0 0 (⟨0, 0⟩ : Point) ⟨0, 0⟩).duration = 0 ∧
        (Plan.mk [Block.new 0 0 0 ⟨0, 0⟩ ⟨0, 0⟩] 0 0 [0] [0]).totalTime = 0 ∧
        (Plan.mk [Block.new 0 0 0 ⟨0, 0⟩ ⟨0, 0⟩] 0 0 [0] [0]).totalDistance = 0) :=
  plan_blocks_duration 0 [⟨0, 0⟩] 16 20 (1 / 1000)
    (Plan.mk [Block.new 0 0 0 ⟨0, 0⟩ ⟨0, 0⟩] 0 0 [0] [0]) rfl
    (Block.new 0 0 0 ⟨0, 0⟩ ⟨0, 0⟩) (by simp)
